import Mathlib

/-!
Verification of the report aggregation and rendering pipeline of the
observability-cost-center CLI tool.

The Go source is shallowly embedded as follows:

* `float64` values (costs, quantities, metric values) are modelled as exact
  rationals (`Rat`).  The source computes every total by the same left fold
  that the embedding uses, so all algebraic identities hold exactly; the
  1e-6 floating-point tolerance admitted by the specification is subsumed
  by exact equality.
* `time.Time` instants are modelled as `Int` Unix seconds; `t.Before u` is
  `t < u` and `Format("2006-01-02")` is `formatDay` below (the standard
  civil-from-days calendar algorithm, UTC).
* Fallible Go calls returning `(T, error)` are modelled as
  `Except String T`; a Go panic is modelled as `Option.none`.
* Writes to the `io.Writer` sink are modelled as an accumulated
  `List String`, one element per `Fprintf`/table-row emission; fixed-width
  column padding performed by the tablewriter library is abstracted (cells
  are joined with single spaces), which none of the verified properties
  depend on.
* `sort.Slice` / `sort.Strings` guarantee a sorted permutation of the
  input; they are modelled by `List.insertionSort`, which has exactly that
  postcondition.
* Go map iteration order is not deterministic; wherever the source ranges
  over a map (account buckets, day buckets) it keeps an explicit key slice
  in first-seen order, which the embedding mirrors with `firstSeen`.
-/

namespace OCC

/-- `providers.UsageData` (internal/providers/provider.go). -/
structure UsageData where
  Service : String
  Metric : String
  Value : Rat
  Unit : String
  Timestamp : Int
deriving DecidableEq, Repr

/-- `providers.CostData` (internal/providers/provider.go). -/
structure CostData where
  Service : String
  ItemName : String
  Cost : Rat
  Currency : String
  Period : String
  StartTime : Int
  EndTime : Int
  Region : String
  Quantity : Rat
  UsageUnit : String
  AccountID : String
  Description : String
deriving DecidableEq, Repr

/-- `reports.Report` (internal/reports/report.go, final variant with
`CustomSections`).  The Go `map[string]string` of custom sections is
modelled as an association list. -/
structure Report where
  ProviderName : String
  StartDate : Int
  EndDate : Int
  UsageData : List UsageData
  CostData : List CostData
  ReportType : String
  TotalCost : Rat
  CustomSections : List (String × String)
deriving DecidableEq, Repr

/-- `providers.Provider` capability interface: `GetName`, `GetUsageData`,
`GetCostData` (internal/providers/provider.go). -/
structure Provider where
  getName : String
  getUsageData : Int → Int → Except String (List UsageData)
  getCostData : Int → Int → Except String (List CostData)

/-- The running total loop of `GenerateReport`
(`for _, cost := range report.CostData { report.TotalCost += cost.Cost }`,
internal/reports/generator.go:50-53). -/
def sumCosts (cs : List CostData) : Rat :=
  cs.foldl (fun acc c => acc + c.Cost) 0

/-- `ReportGenerator.GenerateReport` (internal/reports/generator.go:24-57).
The report starts from the zero value (empty slices, zero total); usage
data is fetched for `usage`/`full`, cost data for `cost`/`full`, and the
total cost is the fold of `Cost` over the fetched cost data.  Any other
report type string falls through both conditionals and yields the header
report with no data and no error (the type check happens in the CLI layer,
see `executeReportPipeline`). -/
def GenerateReport (p : Provider) (reportType : String) (start stop : Int) :
    Except String Report :=
  let report0 : Report :=
    { ProviderName := p.getName
      StartDate := start
      EndDate := stop
      UsageData := []
      CostData := []
      ReportType := reportType
      TotalCost := 0
      CustomSections := [] }
  let step1 : Except String Report :=
    if reportType = "usage" ∨ reportType = "full" then
      match p.getUsageData start stop with
      | .error e => .error ("error getting usage data: " ++ e)
      | .ok us => .ok { report0 with UsageData := us }
    else .ok report0
  match step1 with
  | .error e => .error e
  | .ok r1 =>
    if reportType = "cost" ∨ reportType = "full" then
      match p.getCostData start stop with
      | .error e => .error ("error getting cost data: " ++ e)
      | .ok cs => .ok { r1 with CostData := cs, TotalCost := sumCosts cs }
    else .ok r1

/-- The report-type switch of `executeReport` (cmd/report.go:92-101):
only `usage`, `cost` and `full` are accepted; anything else is the
terminal error `unsupported report type: <s>`. -/
def parseReportType (s : String) : Except String String :=
  if s = "usage" then .ok "usage"
  else if s = "cost" then .ok "cost"
  else if s = "full" then .ok "full"
  else .error ("unsupported report type: " ++ s)

/-- The report-generation fragment of `executeReport` (cmd/report.go):
validate the report type, then generate the report.  On an unsupported
type the error is returned before any report is produced. -/
def executeReportPipeline (p : Provider) (reportType : String)
    (start stop : Int) : Except String Report := do
  let t ← parseReportType reportType
  GenerateReport p t start stop

/-- `truncateString` (internal/reports/report.go:662-667).  Go byte
indexing on the ASCII descriptions used by the reports coincides with
character indexing, so strings are modelled as `List Char`.  The Go slice
`s[:maxLength-3]` panics when `maxLength-3 < 0`; the panic is modelled as
`none`. -/
def truncateString (s : List Char) (maxLength : Int) : Option (List Char) :=
  if (s.length : Int) ≤ maxLength then
    some s
  else if maxLength - 3 < 0 then
    none
  else
    some (s.take (maxLength - 3).toNat ++ ['.', '.', '.'])

/-- The decimal digit character for `n < 10`. -/
def digitChar (n : Nat) : Char :=
  match n with
  | 0 => '0' | 1 => '1' | 2 => '2' | 3 => '3' | 4 => '4'
  | 5 => '5' | 6 => '6' | 7 => '7' | 8 => '8' | _ => '9'

/-- Decimal digits of a natural number, most significant first.  The fuel
argument makes the recursion structural; `n + 1` units of fuel always
suffice since the argument shrinks by a factor of ten per step. -/
def natDigitsAux : Nat → Nat → List Char → List Char
  | 0, _, acc => acc
  | fuel + 1, n, acc =>
    if n < 10 then digitChar n :: acc
    else natDigitsAux fuel (n / 10) (digitChar (n % 10) :: acc)

def natDigits (n : Nat) : List Char := natDigitsAux (n + 1) n []

def natStr (n : Nat) : String := String.mk (natDigits n)

def pad2 (n : Nat) : String := if n < 10 then "0" ++ natStr n else natStr n

def pad4 (n : Nat) : String :=
  (if n < 10 then "000" else if n < 100 then "00"
   else if n < 1000 then "0" else "") ++ natStr n

/-- Go `time.Time.Format("2006-01-02")` for a UTC instant given in Unix
seconds: the standard civil-from-days calendar conversion followed by
zero-padded `YYYY-MM-DD` printing. -/
def formatDay (t : Int) : String :=
  let z : Int := t.fdiv 86400 + 719468
  let era : Int := z.fdiv 146097
  let doe : Nat := (z - era * 146097).toNat
  let yoe : Nat := (doe - doe / 1460 + doe / 36524 - doe / 146096) / 365
  let y : Int := (yoe : Int) + era * 400
  let doy : Nat := doe - (365 * yoe + yoe / 4 - yoe / 100)
  let mp : Nat := (5 * doy + 2) / 153
  let d : Nat := doy - (153 * mp + 2) / 5 + 1
  let m : Nat := if mp < 10 then mp + 3 else mp - 9
  let yy : Int := if m ≤ 2 then y + 1 else y
  pad4 yy.toNat ++ "-" ++ pad2 m ++ "-" ++ pad2 d

/-- One step of the key-slice accumulation the source performs while
bucketing (`if _, exists := groups[key]; !exists { keys = append(keys, key) }`). -/
def addKey (acc : List String) (k : String) : List String :=
  if k ∈ acc then acc else acc ++ [k]

/-- The bucket keys in first-seen order, as accumulated by the grouping
loops of `outputAsTable` (internal/reports/generator.go:323-328, 383-389). -/
def firstSeen (l : List String) : List String := l.foldl addKey []

/-- Lexicographic (byte-wise) string order used by Go `sort.Strings`. -/
def lexLe (a b : List Char) : Bool :=
  match a, b with
  | [], _ => true
  | x :: xs, y :: ys => if x < y then true else if y < x then false else lexLe xs ys
  | _ :: _, [] => false

def strLeProp (a b : String) : Prop := lexLe a.data b.data = true

instance : DecidableRel strLeProp := fun _ _ => instDecidableEqBool _ _

/-- Go `sort.Strings`: a sorted permutation of the input (modelled by
insertion sort, which has exactly that postcondition). -/
def sortStrings (l : List String) : List String := List.insertionSort strLeProp l

/-- Account-ID key slice of the cost grouping, first-seen then sorted
(`sort.Strings(accountIDs)`, internal/reports/generator.go:321-331). -/
def accountIDsOf (cs : List CostData) : List String :=
  firstSeen (cs.map CostData.AccountID)

def sortedAccountIDs (cs : List CostData) : List String :=
  sortStrings (accountIDsOf cs)

/-- The bucket `accountGroups[id]`: appending each record to its key's
bucket in input order yields exactly the stable filter by key. -/
def accountGroup (cs : List CostData) (id : String) : List CostData :=
  cs.filter (fun c => c.AccountID == id)

/-- `cost.StartTime.Format("2006-01-02")`, the day key of the inner
grouping. -/
def dayKey (c : CostData) : String := formatDay c.StartTime

/-- Day key slice of one account's costs, first-seen then sorted
(`sort.Strings(days)`, internal/reports/generator.go:380-392). -/
def daysOf (costs : List CostData) : List String :=
  sortStrings (firstSeen (costs.map dayKey))

def dayGroup (costs : List CostData) (d : String) : List CostData :=
  costs.filter (fun c => dayKey c == d)

/-- `dayTotal` of the detailed breakdown: sum of `Cost` over a day bucket
(internal/reports/generator.go:403-417). -/
def dayTotal (costs : List CostData) (d : String) : Rat :=
  sumCosts (dayGroup costs d)

/-- `accountTotal` of the summary table: sum of `Cost` over one account's
bucket (internal/reports/generator.go:342-353). -/
def accountTotalDirect (cs : List CostData) (id : String) : Rat :=
  sumCosts (accountGroup cs id)

/-- `accountTotal` of the detailed breakdown: running sum of the day
subtotals (`accountTotal += dayTotal`, internal/reports/generator.go:419). -/
def accountTotalViaDays (costs : List CostData) : Rat :=
  (daysOf costs).foldl (fun acc d => acc + dayTotal costs d) 0

/-- `grandTotal` of the summary table: running sum of the account totals
(`grandTotal += accountTotal`, internal/reports/generator.go:339-353). -/
def grandTotal (cs : List CostData) : Rat :=
  (sortedAccountIDs cs).foldl (fun acc id => acc + accountTotalDirect cs id) 0

/-- All (account, day) buckets of the cost grouping, in rendering order. -/
def costBuckets (cs : List CostData) : List (List CostData) :=
  (sortedAccountIDs cs).flatMap
    (fun a => (daysOf (accountGroup cs a)).map (fun d => dayGroup (accountGroup cs a) d))

/-- The (account, day) keys of the buckets, in rendering order. -/
def bucketKeys (cs : List CostData) : List (String × String) :=
  (sortedAccountIDs cs).flatMap
    (fun a => (daysOf (accountGroup cs a)).map (fun d => (a, d)))

/-- Ordering used by the usage-data sort
(`sort.Slice(r.UsageData, func(i, j) { return UsageData[i].Timestamp.Before(UsageData[j].Timestamp) })`,
internal/reports/generator.go:284-286): the postcondition of `sort.Slice`
with strict less `Before` is a permutation that is non-decreasing in the
timestamp. -/
def usageLe (a b : UsageData) : Prop := a.Timestamp ≤ b.Timestamp

instance : DecidableRel usageLe := fun a b => Int.decLe a.Timestamp b.Timestamp

instance : IsTotal UsageData usageLe := ⟨fun a b => Int.le_total a.Timestamp b.Timestamp⟩

instance : IsTrans UsageData usageLe := ⟨fun _ _ _ hab hbc => le_trans hab hbc⟩

def sortUsage (l : List UsageData) : List UsageData := List.insertionSort usageLe l

/-- Exact printing of a rational; stands in for Go `%.4f`/`%.2f` decimal
formatting of float64, which is below the abstraction level of the
rational model (no verified property depends on numeral shapes). -/
def intStrS (n : Int) : String :=
  if n < 0 then "-" ++ natStr n.natAbs else natStr n.natAbs

def ratStr (q : Rat) : String := intStrS q.num ++ "/" ++ natStr q.den

/-- One rendered table row; the tablewriter's fixed-width padding is
abstracted to single-space joining. -/
def row (cells : List String) : String := String.intercalate " " cells

/-- Go `time.Time.Format("2006-01-02 15:04:05")` for a UTC Unix-seconds
instant. -/
def formatDateTime (t : Int) : String :=
  let sod : Nat := (t.emod 86400).toNat
  formatDay t ++ " " ++ pad2 (sod / 3600) ++ ":" ++ pad2 (sod % 3600 / 60)
    ++ ":" ++ pad2 (sod % 60)

/-- One usage row of the `table` renderer
(internal/reports/generator.go:302-310). -/
def usageRow (u : UsageData) : String :=
  row [u.Service, u.Metric, ratStr u.Value, u.Unit, formatDateTime u.Timestamp]

/-- The sequence of usage records emitted by the `table` renderer: sorted
ascending by timestamp when the usage section is rendered at all
(non-empty usage data and report type `usage` or `full`), empty
otherwise. -/
def renderedUsage (r : Report) : List UsageData :=
  if r.UsageData ≠ [] ∧ (r.ReportType = "usage" ∨ r.ReportType = "full") then
    sortUsage r.UsageData
  else []

/-- The running `currency` variable of the summary table after all
accounts have been processed (last-seen wins,
internal/reports/generator.go:340-351). -/
def finalCurrency (cs : List CostData) : String :=
  (sortedAccountIDs cs).foldl
    (fun acc a => (accountGroup cs a).foldl (fun _ c => c.Currency) acc) ""

/-- The `currency` value at the moment account `a`'s summary row is
appended: the last currency seen in `a`'s bucket (the bucket is non-empty
for every key produced by the grouping). -/
def rowCurrency (cs : List CostData) (a : String) : String :=
  (accountGroup cs a).foldl (fun _ c => c.Currency) ""

/-- One cost row of the detailed per-account table
(internal/reports/generator.go:407-414). -/
def costRow (c : CostData) : String :=
  row [formatDay c.StartTime, c.Service, ratStr c.Cost ++ " " ++ c.Currency,
    ratStr c.Quantity ++ " " ++ c.UsageUnit, c.Description]

/-- The detailed breakdown table of one account: per-day cost rows each
followed by a DAILY TOTAL row, an ACCOUNT TOTAL footer, and the caption
(internal/reports/generator.go:376-439). -/
def accountDetailLines (cs : List CostData) (a : String) : List String :=
  let ga := accountGroup cs a
  row ["Date", "Service", "Cost", "Usage", "Description"] ::
    ((daysOf ga).flatMap fun d =>
      (dayGroup ga d).map costRow ++
        [row [d, "DAILY TOTAL", ratStr (dayTotal ga d), "", ""]]) ++
    [row ["", "ACCOUNT TOTAL", ratStr (accountTotalViaDays ga), "", ""],
     "Account ID: " ++ a]

/-- `Report.outputAsTable` (internal/reports/generator.go:263-443),
modelled as a state transformer: it returns the post-state of the report
(the in-place `sort.Slice` reorders `UsageData` when the usage section is
rendered) together with the emitted lines; the Go function always returns
a nil error. -/
def outputAsTableRun (r : Report) : Report × List String × Option String :=
  let headerLines : List String :=
    ["Report for " ++ r.ProviderName,
     "Period: " ++ formatDay r.StartDate ++ " to " ++ formatDay r.EndDate,
     "Report Type: " ++ r.ReportType,
     "Usage data entries: " ++ natStr r.UsageData.length,
     "Cost data entries: " ++ natStr r.CostData.length,
     r.ReportType ++ " Report for " ++ r.ProviderName,
     "Period: " ++ formatDay r.StartDate ++ " to " ++ formatDay r.EndDate]
  let usageLines : List String :=
    if r.UsageData ≠ [] ∧ (r.ReportType = "usage" ∨ r.ReportType = "full") then
      "Usage Data:" :: row ["Service", "Metric", "Value", "Unit", "Timestamp"] ::
        (renderedUsage r).map usageRow
    else []
  let post : Report :=
    if r.UsageData ≠ [] ∧ (r.ReportType = "usage" ∨ r.ReportType = "full") then
      { r with UsageData := sortUsage r.UsageData }
    else r
  let cs := r.CostData
  let costLines : List String :=
    if r.CostData ≠ [] ∧ (r.ReportType = "cost" ∨ r.ReportType = "full") then
      "Cost Data:" :: "Account Cost Summary:" ::
        row ["Account ID", "Total Cost", "Currency"] ::
        ((sortedAccountIDs cs).map fun a =>
          row [a, ratStr (accountTotalDirect cs a), rowCurrency cs a]) ++
        [row ["TOTAL", ratStr (grandTotal cs), finalCurrency cs],
         "Detailed Cost Breakdown by Account:"] ++
        (sortedAccountIDs cs).flatMap (accountDetailLines cs)
    else []
  (post, headerLines ++ usageLines ++ costLines, none)

/-- One usage row of the `summary` renderer, whose timestamp column uses
the `2006-01-02` format (internal/reports/generator.go:136-143). -/
def usageRowPlain (u : UsageData) : String :=
  row [u.Service, u.Metric, ratStr u.Value, u.Unit, formatDay u.Timestamp]

/-- The per-account section of the `summary` renderer
(internal/reports/generator.go:165-229). -/
def accountSummarySection (cs : List CostData) (a : String) : List String :=
  let ga := accountGroup cs a
  ("=== Account: " ++ a ++ " ===") ::
    row ["Date", "Service", "Cost", "Usage", "Unit", "Description"] ::
    ((daysOf ga).flatMap fun d =>
      (dayGroup ga d).map costRow ++
        [row [d, "DAILY TOTAL", ratStr (dayTotal ga d), "", rowCurrency cs a]]) ++
    ["Account Total: " ++ ratStr (accountTotalViaDays ga) ++ " " ++ rowCurrency cs a]

/-- `Report.outputTable` (internal/reports/generator.go:118-260), the
`summary` format.  It never sorts and never fails; its usage and cost
sections are rendered whenever the respective data is non-empty,
regardless of report type. -/
def outputTableRun (r : Report) : Report × List String × Option String :=
  let cs := r.CostData
  let headerLines : List String :=
    ["Report for " ++ r.ProviderName,
     "Period: " ++ formatDay r.StartDate ++ " to " ++ formatDay r.EndDate,
     "Report Type: " ++ r.ReportType,
     "Usage data entries: " ++ natStr r.UsageData.length,
     "Cost data entries: " ++ natStr r.CostData.length,
     "Report for " ++ r.ProviderName,
     "Period: " ++ formatDay r.StartDate ++ " to " ++ formatDay r.EndDate]
  let usageLines : List String :=
    if r.UsageData ≠ [] then
      "=== Usage Data ===" ::
        row ["Service", "Metric", "Value", "Unit", "Timestamp"] ::
        r.UsageData.map usageRowPlain
    else []
  let costLines : List String :=
    if r.CostData ≠ [] then
      "=== Cost Data ===" ::
        (sortedAccountIDs cs).flatMap (accountSummarySection cs) ++
        ["=== Overall Totals ===", row ["Account", "Cost", "Usage"]] ++
        ((sortedAccountIDs cs).map fun a =>
          row [a, ratStr (accountTotalDirect cs a), rowCurrency cs a]) ++
        [row ["GRAND TOTAL", ratStr (grandTotal cs), finalCurrency cs]]
    else []
  (r, headerLines ++ usageLines ++ costLines, none)

/-- `Report.Output` (internal/reports/generator.go:76-101): the format
switch.  `json` and `csv` are dispatched to the stub writers of
generator.go; `table` runs `outputAsTable`; `summary` runs `outputTable`;
anything else returns the unsupported-output-format error having written
nothing to the sink. -/
def Output (r : Report) (format : String) : Report × List String × Option String :=
  if format = "json" then (r, ["JSON output format not yet implemented"], none)
  else if format = "csv" then (r, ["CSV output format not yet implemented"], none)
  else if format = "table" then outputAsTableRun r
  else if format = "summary" then outputTableRun r
  else (r, [], some ("unsupported output format: " ++ format))

/-- Witness provider used to instantiate the claim theorems. -/
def wProvider : Provider :=
  { getName := "AWS CloudWatch"
    getUsageData := fun _ _ => .ok
      [{ Service := "CloudWatch", Metric := "IncomingBytes", Value := 2,
         Unit := "GB", Timestamp := 100 },
       { Service := "CloudWatch", Metric := "CallCount", Value := 7,
         Unit := "Count", Timestamp := 50 }]
    getCostData := fun _ _ => .ok
      [{ Service := "AmazonCloudWatch", ItemName := "Account: 111", Cost := 35,
         Currency := "USD", Period := "Daily", StartTime := 0, EndTime := 86400,
         Region := "eu-west-1", Quantity := 3, UsageUnit := "GB",
         AccountID := "111", Description := "Log Data" }] }

/-- JSON value AST produced by `Report.OutputJSON`
(internal/reports/report.go:246-319).  `encoding/json` marshals a
well-formed Go value; the AST is that value's JSON shape.  Numbers carry
`Int`; an exact rational (the model of float64) is encoded as the
two-element array `[numerator, denominator]` since float64 decimal
formatting is below the abstraction level of the rational model. -/
inductive Json where
  | num (n : Int)
  | str (s : String)
  | arr (elems : List Json)
  | obj (fields : List (String × Json))

/-- Serialized form of an integer. -/
def intStr (n : Int) : List Char :=
  if n < 0 then '-' :: natDigits n.natAbs else natDigits n.natAbs

/-- JSON string escaping for the characters that must be escaped in a
string literal (quote and backslash). -/
def escapeChar (c : Char) : List Char :=
  if c = '"' ∨ c = '\\' then ['\\', c] else [c]

def escape (s : List Char) : List Char := s.flatMap escapeChar

mutual

/-- Compact serialization of a JSON value (whitespace-free; JSON parsing
is whitespace-insensitive, so the 2-space pretty-printing of the encoder
does not affect any parsed content). -/
def Json.render : Json → List Char
  | .num n => intStr n
  | .str s => '"' :: (escape s.data ++ ['"'])
  | .arr es => '[' :: (renderElems es ++ [']'])
  | .obj fs => '{' :: (renderFields fs ++ ['}'])

def renderElems : List Json → List Char
  | [] => []
  | [j] => Json.render j
  | j :: js => Json.render j ++ ',' :: renderElems js

def renderFields : List (String × Json) → List Char
  | [] => []
  | [f] => '"' :: (escape f.1.data ++ '"' :: ':' :: Json.render f.2)
  | f :: fs =>
    ('"' :: (escape f.1.data ++ '"' :: ':' :: Json.render f.2)) ++ ',' :: renderFields fs

end

def isDigitCh (c : Char) : Bool := 48 ≤ c.toNat && c.toNat ≤ 57

/-- The input does not continue with a digit (so a maximal-munch number
parse that ended right before it is not disturbed). -/
def headNotDigit (l : List Char) : Prop :=
  match l with
  | [] => True
  | c :: _ => isDigitCh c = false

/-- Maximal run of leading digits and the remainder. -/
def digitSpan : List Char → List Char × List Char
  | [] => ([], [])
  | c :: cs =>
    if isDigitCh c then
      let p := digitSpan cs
      (c :: p.1, p.2)
    else ([], c :: cs)

def digitsVal (ds : List Char) : Nat :=
  ds.foldl (fun a c => 10 * a + (c.toNat - 48)) 0

def parseNat (s : List Char) : Option (Nat × List Char) :=
  match digitSpan s with
  | ([], _) => none
  | (ds, rest) => some (digitsVal ds, rest)

def parseInt (s : List Char) : Option (Int × List Char) :=
  match s with
  | [] => none
  | c :: cs =>
    if c = '-' then (parseNat cs).map (fun p => (-(p.1 : Int), p.2))
    else (parseNat (c :: cs)).map (fun p => ((p.1 : Int), p.2))

/-- Body of a JSON string literal after the opening quote: reads up to
the unescaped closing quote, unescaping backslash pairs. -/
def parseStrBody : List Char → Option (List Char × List Char)
  | [] => none
  | '\\' :: c :: rest => (parseStrBody rest).map (fun p => (c :: p.1, p.2))
  | '"' :: rest => some ([], rest)
  | c :: rest => (parseStrBody rest).map (fun p => (c :: p.1, p.2))

mutual

/-- Recursive-descent JSON parser with explicit fuel (each recursive call
consumes one unit, making the recursion structural). -/
def parseVal : Nat → List Char → Option (Json × List Char)
  | 0, _ => none
  | fuel + 1, s =>
    match s with
    | '"' :: rest => (parseStrBody rest).map (fun p => (Json.str (String.mk p.1), p.2))
    | '[' :: ']' :: rest => some (Json.arr [], rest)
    | '[' :: rest => (parseElems fuel rest).map (fun p => (Json.arr p.1, p.2))
    | '{' :: '}' :: rest => some (Json.obj [], rest)
    | '{' :: rest => (parseFields fuel rest).map (fun p => (Json.obj p.1, p.2))
    | _ => (parseInt s).map (fun p => (Json.num p.1, p.2))

def parseElems : Nat → List Char → Option (List Json × List Char)
  | 0, _ => none
  | fuel + 1, s =>
    match parseVal fuel s with
    | none => none
    | some (j, r) =>
      match r with
      | ',' :: r2 => (parseElems fuel r2).map (fun p => (j :: p.1, p.2))
      | ']' :: r2 => some ([j], r2)
      | _ => none

def parseFields : Nat → List Char → Option (List (String × Json) × List Char)
  | 0, _ => none
  | fuel + 1, s =>
    match s with
    | '"' :: rest =>
      match parseStrBody rest with
      | none => none
      | some (k, r) =>
        match r with
        | ':' :: r2 =>
          match parseVal fuel r2 with
          | none => none
          | some (v, r3) =>
            match r3 with
            | ',' :: r4 => (parseFields fuel r4).map (fun p => ((String.mk k, v) :: p.1, p.2))
            | '}' :: r4 => some ([(String.mk k, v)], r4)
            | _ => none
        | _ => none
    | _ => none

end

/-- Parse a complete JSON document: the whole input must be consumed. -/
def Json.parse (s : List Char) : Option Json :=
  match parseVal (s.length + 1) s with
  | some (j, []) => some j
  | _ => none

def lookupField : List (String × Json) → String → Option Json
  | [], _ => none
  | f :: fs, key => if f.1 = key then some f.2 else lookupField fs key

/-- Field lookup on an object value. -/
def Json.lookup : Json → String → Option Json
  | .obj fs, key => lookupField fs key
  | _, _ => none

/-- Exact-rational encoding of a float64 value in the JSON model. -/
def ratJson (q : Rat) : Json := Json.arr [Json.num q.num, Json.num (q.den : Int)]

/-- `encoding/json` marshalling of a `providers.UsageData` value: struct
fields in declaration order (no json tags on the struct).  The RFC3339
time encoding is abstracted to the underlying instant. -/
def usageJson (u : UsageData) : Json :=
  Json.obj
    [("Service", Json.str u.Service),
     ("Metric", Json.str u.Metric),
     ("Value", ratJson u.Value),
     ("Unit", Json.str u.Unit),
     ("Timestamp", Json.num u.Timestamp)]

/-- `encoding/json` marshalling of a `providers.CostData` value, struct
fields in declaration order. -/
def costJson (c : CostData) : Json :=
  Json.obj
    [("Service", Json.str c.Service),
     ("ItemName", Json.str c.ItemName),
     ("Cost", ratJson c.Cost),
     ("Currency", Json.str c.Currency),
     ("Period", Json.str c.Period),
     ("StartTime", Json.num c.StartTime),
     ("EndTime", Json.num c.EndTime),
     ("Region", Json.str c.Region),
     ("Quantity", ratJson c.Quantity),
     ("UsageUnit", Json.str c.UsageUnit),
     ("AccountID", Json.str c.AccountID),
     ("Description", Json.str c.Description)]

/-- `summary["totalCost"]`: the running sum over the per-account costs in
map-iteration order (internal/reports/report.go:277-292; Go map iteration
is modelled as first-seen key order). -/
def summaryTotal (cs : List CostData) : Rat :=
  (accountIDsOf cs).foldl (fun acc a => acc + accountTotalDirect cs a) 0

/-- `summary["currency"]`: the currency of the first account processed
(first-seen under the modelled map order). -/
def primaryCurrency (cs : List CostData) : String :=
  match accountIDsOf cs with
  | [] => ""
  | a :: _ => rowCurrency cs a

/-- `summary["accounts"]`: one entry per account with its accumulated
cost (`accountCosts[id] += cost.Cost`) and last-seen currency
(internal/reports/report.go:268-294). -/
def accountsJson (cs : List CostData) : Json :=
  Json.arr ((accountIDsOf cs).map fun a =>
    Json.obj
      [("accountId", Json.str a),
       ("cost", ratJson (accountTotalDirect cs a)),
       ("currency", Json.str (rowCurrency cs a))])

/-- The `summary` map of `OutputJSON`: entry counts always, plus the cost
summary when cost data is present.  `encoding/json` emits map keys in
sorted order. -/
def summaryJson (r : Report) : Json :=
  Json.obj
    (if r.CostData = [] then
      [("costDataEntries", Json.num (r.CostData.length : Int)),
       ("usageDataEntries", Json.num (r.UsageData.length : Int))]
     else
      [("accounts", accountsJson r.CostData),
       ("costDataEntries", Json.num (r.CostData.length : Int)),
       ("currency", Json.str (primaryCurrency r.CostData)),
       ("totalCost", ratJson (summaryTotal r.CostData)),
       ("usageDataEntries", Json.num (r.UsageData.length : Int))])

/-- `Report.OutputJSON` (internal/reports/report.go:246-319): the
structured document marshalled by the encoder, with `omitempty` dropping
empty usage data, cost data and custom sections, and dates formatted as
`YYYY-MM-DD`. -/
def OutputJSON (r : Report) : Json :=
  Json.obj
    ([("provider", Json.str r.ProviderName),
      ("reportType", Json.str r.ReportType),
      ("startDate", Json.str (formatDay r.StartDate)),
      ("endDate", Json.str (formatDay r.EndDate))] ++
     (if r.UsageData = [] then []
      else [("usageData", Json.arr (r.UsageData.map usageJson))]) ++
     (if r.CostData = [] then []
      else [("costData", Json.arr (r.CostData.map costJson))]) ++
     (if r.CustomSections = [] then []
      else [("customSections",
        Json.obj (r.CustomSections.map fun p => (p.1, Json.str p.2)))]) ++
     [("summary", summaryJson r)])

/-- A concrete report whose usage data is out of timestamp order. -/
def rUnsorted : Report :=
  { ProviderName := "AWS CloudWatch"
    StartDate := 0
    EndDate := 86400
    UsageData :=
      [{ Service := "CloudWatch", Metric := "IncomingBytes", Value := 2,
         Unit := "GB", Timestamp := 100 },
       { Service := "CloudWatch", Metric := "CallCount", Value := 7,
         Unit := "Count", Timestamp := 50 }]
    CostData := []
    ReportType := "usage"
    TotalCost := 0
    CustomSections := [] }

/-- A concrete report with no usage and no cost records. -/
def rEmpty : Report :=
  { ProviderName := "AWS CloudWatch"
    StartDate := 0
    EndDate := 86400
    UsageData := []
    CostData := []
    ReportType := "full"
    TotalCost := 0
    CustomSections := [] }

end OCC

namespace OCC

/-- Shared helper: a generated `cost`/`full` report's `TotalCost` is the
fold of `Cost` over its `CostData`. -/
theorem totalCost_aux (p : Provider) (rt : String)
    (start stop : Int) (rep : Report)
    (hok : GenerateReport p rt start stop = .ok rep)
    (hrt : rt = "cost" ∨ rt = "full") :
    rep.TotalCost = sumCosts rep.CostData := by
  unfold GenerateReport at hok
  by_cases h1 : rt = "usage" ∨ rt = "full"
  · simp only [if_pos h1] at hok
    cases hu : p.getUsageData start stop with
    | error e => rw [hu] at hok; simp at hok
    | ok us =>
      rw [hu] at hok
      simp only [if_pos hrt] at hok
      cases hc : p.getCostData start stop with
      | error e => rw [hc] at hok; simp at hok
      | ok cs =>
        rw [hc] at hok
        simp only [Except.ok.injEq] at hok
        subst hok
        rfl
  · simp only [if_neg h1] at hok
    simp only [if_pos hrt] at hok
    cases hc : p.getCostData start stop with
    | error e => rw [hc] at hok; simp at hok
    | ok cs =>
      rw [hc] at hok
      simp only [Except.ok.injEq] at hok
      subst hok
      rfl

/-- C1: For reports generated with reportType `cost` or `full`, the
report's `TotalCost` equals the fold of `Cost` over its `CostData`
starting from 0. -/
theorem generateReport_totalCost (p : Provider) (rt : String)
    (start stop : Int) (rep : Report)
    (hok : GenerateReport p rt start stop = .ok rep)
    (hrt : rt = "cost" ∨ rt = "full") :
    rep.TotalCost = sumCosts rep.CostData :=
  totalCost_aux p rt start stop rep hok hrt

/-- Witness for C1: the concrete provider's cost report has
`TotalCost = sumCosts CostData`. -/
theorem generateReport_totalCost_witness :
    ∃ rep : Report, GenerateReport wProvider "cost" 0 86400 = .ok rep ∧
      rep.TotalCost = sumCosts rep.CostData := by
  refine ⟨_, rfl, ?_⟩
  exact generateReport_totalCost wProvider "cost" 0 86400 _ rfl (Or.inl rfl)

/-- C3: `usage` reports have empty cost data and zero total cost; `cost`
reports have empty usage data; `full` reports carry exactly the
provider's usage and cost data. -/
theorem generateReport_populates_by_type (p : Provider) (start stop : Int) :
    (∀ rep, GenerateReport p "usage" start stop = .ok rep →
      rep.CostData = [] ∧ rep.TotalCost = 0) ∧
    (∀ rep, GenerateReport p "cost" start stop = .ok rep →
      rep.UsageData = []) ∧
    (∀ us rep, p.getUsageData start stop = .ok us →
      GenerateReport p "usage" start stop = .ok rep →
      rep.UsageData = us) ∧
    (∀ cs rep, p.getCostData start stop = .ok cs →
      GenerateReport p "cost" start stop = .ok rep →
      rep.CostData = cs) ∧
    (∀ us cs rep, p.getUsageData start stop = .ok us →
      p.getCostData start stop = .ok cs →
      GenerateReport p "full" start stop = .ok rep →
      rep.UsageData = us ∧ rep.CostData = cs) := by
  refine ⟨?_, ?_, ?_, ?_, ?_⟩
  · intro rep hok
    cases hu : p.getUsageData start stop with
    | error e => unfold GenerateReport at hok; simp [hu] at hok
    | ok us =>
      unfold GenerateReport at hok
      simp [hu] at hok
      subst hok
      exact ⟨rfl, rfl⟩
  · intro rep hok
    cases hc : p.getCostData start stop with
    | error e => unfold GenerateReport at hok; simp [hc] at hok
    | ok cs =>
      unfold GenerateReport at hok
      simp [hc] at hok
      subst hok
      rfl
  · intro us rep hu hok
    unfold GenerateReport at hok
    simp [hu] at hok
    subst hok
    rfl
  · intro cs rep hc hok
    unfold GenerateReport at hok
    simp [hc] at hok
    subst hok
    rfl
  · intro us cs rep hu hc hok
    unfold GenerateReport at hok
    simp [hu, hc] at hok
    subst hok
    exact ⟨rfl, rfl⟩

/-- Witness for C3 at the concrete provider: all three report types behave
as claimed. -/
theorem generateReport_populates_by_type_witness :
    (∃ rep, GenerateReport wProvider "usage" 0 86400 = .ok rep ∧
      rep.CostData = [] ∧ rep.TotalCost = 0) ∧
    (∃ rep, GenerateReport wProvider "cost" 0 86400 = .ok rep ∧
      rep.UsageData = []) := by
  constructor
  · exact ⟨_, rfl,
      (generateReport_populates_by_type wProvider 0 86400).1 _ rfl⟩
  · exact ⟨_, rfl,
      (generateReport_populates_by_type wProvider 0 86400).2.1 _ rfl⟩

/-- C4: any report type other than `usage`, `cost`, `full` makes the
report pipeline fail with the unsupported-report-type error before any
report is generated. -/
theorem executeReportPipeline_unsupported_type (p : Provider)
    (rt : String) (start stop : Int)
    (h1 : rt ≠ "usage") (h2 : rt ≠ "cost") (h3 : rt ≠ "full") :
    executeReportPipeline p rt start stop =
      .error ("unsupported report type: " ++ rt) := by
  unfold executeReportPipeline parseReportType
  simp [h1, h2, h3, Bind.bind, Except.bind]

/-- Witness for C4: the report type `xml` is rejected. -/
theorem executeReportPipeline_unsupported_type_witness :
    executeReportPipeline wProvider "xml" 0 86400 =
      .error "unsupported report type: xml" :=
  executeReportPipeline_unsupported_type wProvider "xml" 0 86400
    (by decide) (by decide) (by decide)

/-- C10: `truncateString` returns the string unchanged when it fits,
truncates to exactly `maxLength` characters (ellipsis included) when
`maxLength ≥ 3`, and panics (modelled as `none`) when the string is too
long and `maxLength < 3`. -/
theorem truncateString_spec (s : List Char) (maxLength : Int) :
    ((s.length : Int) ≤ maxLength → truncateString s maxLength = some s) ∧
    (maxLength < (s.length : Int) → 3 ≤ maxLength →
      truncateString s maxLength =
        some (s.take (maxLength - 3).toNat ++ ['.', '.', '.']) ∧
      ∀ t, truncateString s maxLength = some t →
        (t.length : Int) = maxLength) ∧
    (maxLength < (s.length : Int) → maxLength < 3 →
      truncateString s maxLength = none) := by
  refine ⟨?_, ?_, ?_⟩
  · intro hle
    unfold truncateString
    rw [if_pos hle]
  · intro hgt h3
    have hnle : ¬ (s.length : Int) ≤ maxLength := by omega
    have hnneg : ¬ maxLength - 3 < 0 := by omega
    constructor
    · unfold truncateString
      rw [if_neg hnle, if_neg hnneg]
    · intro t ht
      unfold truncateString at ht
      rw [if_neg hnle, if_neg hnneg] at ht
      simp only [Option.some.injEq] at ht
      subst ht
      have htake : ((maxLength - 3).toNat) ≤ s.length := by omega
      simp only [List.length_append, List.length_take, List.length_cons,
        List.length_nil]
      have hmin : min (maxLength - 3).toNat s.length = (maxLength - 3).toNat := by
        omega
      rw [hmin]
      omega
  · intro hgt h3
    have hnle : ¬ (s.length : Int) ≤ maxLength := by omega
    have hneg : maxLength - 3 < 0 := by omega
    unfold truncateString
    rw [if_neg hnle, if_pos hneg]

/-- Witness for C10: a concrete description is truncated to exactly the
requested width, and an undersized width panics. -/
theorem truncateString_spec_witness :
    truncateString "Log Data Ingestion".data 10 =
      some "Log Dat...".data ∧
    truncateString "Log Data Ingestion".data 2 = none := by
  constructor
  · exact ((truncateString_spec "Log Data Ingestion".data 10).2.1
      (by decide) (by decide)).1.trans (by decide)
  · exact (truncateString_spec "Log Data Ingestion".data 2).2.2
      (by decide) (by decide)

theorem mem_foldl_addKey (l : List String) :
    ∀ (acc : List String) (x : String),
      x ∈ l.foldl addKey acc ↔ x ∈ acc ∨ x ∈ l := by
  induction l with
  | nil => intro acc x; simp
  | cons k l ih =>
    intro acc x
    rw [List.foldl_cons, ih]
    unfold addKey
    by_cases hk : k ∈ acc
    · rw [if_pos hk]
      constructor
      · rintro (h | h)
        · exact Or.inl h
        · exact Or.inr (List.mem_cons_of_mem _ h)
      · rintro (h | h)
        · exact Or.inl h
        · rcases List.mem_cons.1 h with h | h
          · exact Or.inl (h ▸ hk)
          · exact Or.inr h
    · rw [if_neg hk]
      simp only [List.mem_append, List.mem_singleton, List.mem_cons]
      tauto

theorem nodup_foldl_addKey (l : List String) :
    ∀ acc : List String, acc.Nodup → (l.foldl addKey acc).Nodup := by
  induction l with
  | nil => intro acc h; exact h
  | cons k l ih =>
    intro acc hacc
    rw [List.foldl_cons]
    apply ih
    unfold addKey
    by_cases hk : k ∈ acc
    · rw [if_pos hk]; exact hacc
    · rw [if_neg hk]
      simp [List.nodup_append, hacc, hk]

theorem firstSeen_nodup (l : List String) : (firstSeen l).Nodup :=
  nodup_foldl_addKey l [] List.nodup_nil

theorem mem_firstSeen (l : List String) (x : String) :
    x ∈ firstSeen l ↔ x ∈ l := by
  unfold firstSeen
  rw [mem_foldl_addKey]
  simp

theorem sortStrings_perm (l : List String) : (sortStrings l).Perm l :=
  List.perm_insertionSort strLeProp l

theorem sortStrings_nodup (l : List String) (h : l.Nodup) :
    (sortStrings l).Nodup :=
  (sortStrings_perm l).symm.nodup h

theorem mem_sortStrings (l : List String) (x : String) :
    x ∈ sortStrings l ↔ x ∈ l :=
  (sortStrings_perm l).mem_iff

theorem sum_ite_mem (c : Nat) (k0 : String) :
    ∀ ks : List String, ks.Nodup →
      ((ks.map fun k => if k0 = k then c else 0)).sum =
        if k0 ∈ ks then c else 0 := by
  intro ks
  induction ks with
  | nil => intro _; simp
  | cons k ks ih =>
    intro hnd
    rw [List.map_cons, List.sum_cons, ih hnd.of_cons]
    by_cases hk : k0 = k
    · subst hk
      rw [if_pos rfl, if_neg (List.nodup_cons.1 hnd).1, if_pos (List.mem_cons_self _ _)]
      omega
    · rw [if_neg hk]
      by_cases hm : k0 ∈ ks
      · rw [if_pos hm, if_pos (List.mem_cons_of_mem _ hm)]
        omega
      · rw [if_neg hm, if_neg (by simp [hk, hm])]

/-- Core partitioning fact: filtering a list by each key of a duplicate-free
key list that covers all its elements splits the list into buckets whose
concatenation is a permutation of the original list. -/
theorem filter_buckets_perm {α : Type} [DecidableEq α] (key : α → String)
    (ks : List String) (l : List α) (hnd : ks.Nodup)
    (hcov : ∀ x ∈ l, key x ∈ ks) :
    ((ks.map fun k => l.filter (fun x => key x == k)).flatten).Perm l := by
  rw [List.perm_iff_count]
  intro a
  rw [List.count_flatten, List.map_map]
  have hterm : ∀ k : String,
      List.count a (l.filter (fun x => key x == k)) =
        if key a = k then List.count a l else 0 := by
    intro k
    by_cases h : key a = k
    · rw [if_pos h]
      exact List.count_filter (by simp [h])
    · rw [if_neg h, List.count_eq_zero]
      intro hmem
      rw [List.mem_filter] at hmem
      exact h (by simpa using hmem.2)
  have hmap : ks.map ((List.count a) ∘ fun k => l.filter (fun x => key x == k)) =
      ks.map fun k => if key a = k then List.count a l else 0 :=
    List.map_congr_left fun k _ => hterm k
  rw [hmap, sum_ite_mem _ _ ks hnd]
  by_cases hmem : key a ∈ ks
  · rw [if_pos hmem]
  · rw [if_neg hmem]
    rcases List.count_eq_zero.2 (fun hal => hmem (hcov a hal)) with h0
    rw [h0]

theorem sumCosts_eq_sum_map (cs : List CostData) :
    sumCosts cs = (cs.map CostData.Cost).sum := by
  unfold sumCosts
  rw [List.sum_eq_foldl, List.foldl_map]

theorem sumCosts_perm {cs ds : List CostData} (h : cs.Perm ds) :
    sumCosts cs = sumCosts ds := by
  rw [sumCosts_eq_sum_map, sumCosts_eq_sum_map]
  exact (h.map _).sum_eq

theorem foldl_add_map (f : String → Rat) (ks : List String) :
    ks.foldl (fun acc k => acc + f k) 0 = (ks.map f).sum := by
  rw [List.sum_eq_foldl, List.foldl_map]

/-- The day buckets of one account partition that account's costs. -/
theorem dayBuckets_perm (costs : List CostData) :
    (((daysOf costs).map fun d => dayGroup costs d).flatten).Perm costs := by
  apply filter_buckets_perm dayKey
  · exact sortStrings_nodup _ (firstSeen_nodup _)
  · intro x hx
    unfold daysOf
    rw [mem_sortStrings, mem_firstSeen]
    exact List.mem_map_of_mem dayKey hx

/-- The account buckets partition the cost data. -/
theorem accountBuckets_perm (cs : List CostData) :
    (((sortedAccountIDs cs).map fun a => accountGroup cs a).flatten).Perm cs := by
  apply filter_buckets_perm CostData.AccountID
  · exact sortStrings_nodup _ (firstSeen_nodup _)
  · intro x hx
    unfold sortedAccountIDs accountIDsOf
    rw [mem_sortStrings, mem_firstSeen]
    exact List.mem_map_of_mem CostData.AccountID hx

theorem sum_map_sum_costs (L : List (List CostData)) :
    (L.map fun b => (b.map CostData.Cost).sum).sum =
      (L.flatten.map CostData.Cost).sum := by
  induction L with
  | nil => simp
  | cons b L ih =>
    rw [List.map_cons, List.sum_cons, List.flatten_cons, List.map_append,
      List.sum_append, ih]

/-- The detailed breakdown's running sum of day subtotals equals the sum
of the account's costs. -/
theorem accountTotalViaDays_eq_sumCosts (costs : List CostData) :
    accountTotalViaDays costs = sumCosts costs := by
  unfold accountTotalViaDays
  rw [foldl_add_map]
  have h1 : (daysOf costs).map (fun d => dayTotal costs d) =
      ((daysOf costs).map fun d => dayGroup costs d).map
        (fun b => (b.map CostData.Cost).sum) := by
    rw [List.map_map]
    exact List.map_congr_left fun d _ => by
      simp only [Function.comp]
      rw [dayTotal, sumCosts_eq_sum_map]
  rw [h1, sum_map_sum_costs, sumCosts_eq_sum_map]
  exact ((dayBuckets_perm costs).map CostData.Cost).sum_eq

/-- The summary table's running grand total equals the sum of all costs. -/
theorem grandTotal_eq_sumCosts (cs : List CostData) :
    grandTotal cs = sumCosts cs := by
  unfold grandTotal
  rw [foldl_add_map]
  have h1 : (sortedAccountIDs cs).map (fun a => accountTotalDirect cs a) =
      ((sortedAccountIDs cs).map fun a => accountGroup cs a).map
        (fun b => (b.map CostData.Cost).sum) := by
    rw [List.map_map]
    exact List.map_congr_left fun a _ => by
      simp only [Function.comp]
      rw [accountTotalDirect, sumCosts_eq_sum_map]
  rw [h1, sum_map_sum_costs, sumCosts_eq_sum_map]
  exact ((accountBuckets_perm cs).map CostData.Cost).sum_eq

theorem flatMap_flatten_perm (ids : List String)
    (F : String → List (List CostData)) (G : String → List CostData)
    (h : ∀ a ∈ ids, (F a).flatten.Perm (G a)) :
    ((ids.flatMap F).flatten).Perm ((ids.map G).flatten) := by
  induction ids with
  | nil => simp
  | cons a ids ih =>
    rw [List.flatMap_cons, List.flatten_append, List.map_cons, List.flatten_cons]
    exact (h a (List.mem_cons_self _ _)).append
      (ih fun b hb => h b (List.mem_cons_of_mem _ hb))

/-- Flattening all (account, day) buckets recovers the cost data up to
permutation: no record is duplicated or dropped. -/
theorem costBuckets_flatten_perm (cs : List CostData) :
    (costBuckets cs).flatten.Perm cs := by
  unfold costBuckets
  exact (flatMap_flatten_perm (sortedAccountIDs cs) _ (fun a => accountGroup cs a)
    (fun a _ => dayBuckets_perm (accountGroup cs a))).trans (accountBuckets_perm cs)

theorem nodup_flatMap_pairs (ids : List String) (D : String → List String)
    (hids : ids.Nodup) (hD : ∀ a ∈ ids, (D a).Nodup) :
    (ids.flatMap fun a => (D a).map fun d => (a, d)).Nodup := by
  induction ids with
  | nil => simp
  | cons a ids ih =>
    rw [List.flatMap_cons, List.nodup_append]
    refine ⟨?_, ?_, ?_⟩
    · exact (hD a (List.mem_cons_self _ _)).map fun x y h => by injection h
    · exact ih hids.of_cons fun b hb => hD b (List.mem_cons_of_mem _ hb)
    · intro x hxl hxr
      rw [List.mem_map] at hxl
      obtain ⟨d, _, rfl⟩ := hxl
      rw [List.mem_flatMap] at hxr
      obtain ⟨b, hb, hxb⟩ := hxr
      rw [List.mem_map] at hxb
      obtain ⟨d2, _, heq⟩ := hxb
      have hab : b = a := congrArg Prod.fst heq
      exact (List.nodup_cons.1 hids).1 (hab ▸ hb)

/-- The (account, day) bucket keys are pairwise distinct: each record's
key selects exactly one bucket. -/
theorem bucketKeys_nodup (cs : List CostData) : (bucketKeys cs).Nodup := by
  unfold bucketKeys
  exact nodup_flatMap_pairs _ _ (sortStrings_nodup _ (firstSeen_nodup _))
    fun a _ => sortStrings_nodup _ (firstSeen_nodup _)

/-- C2: grouping cost records by account and then by calendar day of
`StartTime` partitions the records exactly (the buckets have pairwise
distinct keys and their concatenation is a permutation of the input);
the per-account running sum of day subtotals equals the account total,
the running sum of account totals (the grand total) equals the sum of all
costs, and the grand total equals the `TotalCost` of any report generated
over this cost data.  With exact rational arithmetic in place of float64
the identities hold exactly, hence within the 1e-6 tolerance the claim
allows. -/
theorem cost_grouping_partition (cs : List CostData) :
    (costBuckets cs).flatten.Perm cs ∧
    (bucketKeys cs).Nodup ∧
    (∀ a, accountTotalViaDays (accountGroup cs a) = accountTotalDirect cs a) ∧
    grandTotal cs = sumCosts cs ∧
    (∀ (p : Provider) (rt : String) (start stop : Int) (rep : Report),
      GenerateReport p rt start stop = .ok rep →
      (rt = "cost" ∨ rt = "full") →
      rep.CostData = cs → grandTotal cs = rep.TotalCost) := by
  refine ⟨costBuckets_flatten_perm cs, bucketKeys_nodup cs, ?_,
    grandTotal_eq_sumCosts cs, ?_⟩
  · intro a
    rw [accountTotalViaDays_eq_sumCosts]
    rfl
  · intro p rt start stop rep hok hrt hcd
    rw [grandTotal_eq_sumCosts, ← hcd]
    exact (totalCost_aux p rt start stop rep hok hrt).symm

/-- Witness for C2: for the concrete provider's cost report the grand
total of the grouping equals the report's total cost. -/
theorem cost_grouping_partition_witness :
    ∃ rep : Report, GenerateReport wProvider "cost" 0 86400 = .ok rep ∧
      grandTotal rep.CostData = rep.TotalCost := by
  refine ⟨_, rfl, ?_⟩
  exact (cost_grouping_partition _).2.2.2.2 wProvider "cost" 0 86400 _ rfl
    (Or.inl rfl) rfl

/-- C5: any format other than `json`, `csv`, `table`, `summary` makes
`Report.Output` fail with the unsupported-output-format error, writing
no bytes to the sink and leaving the report untouched. -/
theorem output_unsupported_format (r : Report) (format : String)
    (h1 : format ≠ "json") (h2 : format ≠ "csv")
    (h3 : format ≠ "table") (h4 : format ≠ "summary") :
    Output r format =
      (r, [], some ("unsupported output format: " ++ format)) := by
  unfold Output
  rw [if_neg h1, if_neg h2, if_neg h3, if_neg h4]

/-- Witness for C5: the format `xml` is rejected with no output. -/
theorem output_unsupported_format_witness :
    Output rEmpty "xml" = (rEmpty, [], some "unsupported output format: xml") :=
  output_unsupported_format rEmpty "xml"
    (by decide) (by decide) (by decide) (by decide)

/-- C7: the usage records emitted by the `table` renderer are in
ascending timestamp order. -/
theorem rendered_usage_sorted (r : Report) (i j : Nat) (hij : i < j)
    (hj : j < (renderedUsage r).length) :
    ((renderedUsage r).get ⟨i, Nat.lt_trans hij hj⟩).Timestamp ≤
      ((renderedUsage r).get ⟨j, hj⟩).Timestamp := by
  have hs : List.Sorted usageLe (renderedUsage r) := by
    unfold renderedUsage
    split
    · exact List.sorted_insertionSort usageLe r.UsageData
    · exact List.sorted_nil
  exact hs.rel_get_of_lt (show (⟨i, Nat.lt_trans hij hj⟩ : Fin _) < ⟨j, hj⟩ from hij)

/-- Witness for C7: the out-of-order concrete report is rendered with
its two usage records in ascending timestamp order. -/
theorem rendered_usage_sorted_witness :
    ((renderedUsage rUnsorted).get ⟨0, by decide⟩).Timestamp ≤
      ((renderedUsage rUnsorted).get ⟨1, by decide⟩).Timestamp :=
  rendered_usage_sorted rUnsorted 0 1 (by decide) (by decide)

/-- C8 counterexample: rendering in `table` format mutates the report.
`rUnsorted` holds its usage records out of timestamp order; the in-place
`sort.Slice` of `outputAsTable` reorders them, so the post-state differs
from the report as constructed. -/
theorem output_mutates_usage_order : (Output rUnsorted "table").1 ≠ rUnsorted := by
  decide

/-- C8 (amended): rendering leaves every field of the report unchanged —
provider, dates, cost data, report type, total cost, custom sections —
except that the `table` renderer may reorder `UsageData` in place
(sorting it ascending by timestamp); the post-state usage data is always
a permutation of the original, and every format other than `table`
leaves the report exactly unchanged. -/
theorem output_preserves_report_amended (r : Report) (format : String) :
    (Output r format).1.ProviderName = r.ProviderName ∧
    (Output r format).1.StartDate = r.StartDate ∧
    (Output r format).1.EndDate = r.EndDate ∧
    (Output r format).1.CostData = r.CostData ∧
    (Output r format).1.ReportType = r.ReportType ∧
    (Output r format).1.TotalCost = r.TotalCost ∧
    (Output r format).1.CustomSections = r.CustomSections ∧
    (Output r format).1.UsageData.Perm r.UsageData ∧
    (format ≠ "table" → (Output r format).1 = r) := by
  unfold Output
  by_cases h1 : format = "json"
  · rw [if_pos h1]
    exact ⟨rfl, rfl, rfl, rfl, rfl, rfl, rfl, List.Perm.refl _, fun _ => rfl⟩
  · rw [if_neg h1]
    by_cases h2 : format = "csv"
    · rw [if_pos h2]
      exact ⟨rfl, rfl, rfl, rfl, rfl, rfl, rfl, List.Perm.refl _, fun _ => rfl⟩
    · rw [if_neg h2]
      by_cases h3 : format = "table"
      · rw [if_pos h3]
        unfold outputAsTableRun
        by_cases hc : r.UsageData ≠ [] ∧ (r.ReportType = "usage" ∨ r.ReportType = "full")
        · simp only [if_pos hc]
          refine ⟨?_, ?_, ?_, ?_, ?_, ?_, ?_, ?_, ?_⟩
          all_goals first
            | trivial
            | exact List.perm_insertionSort usageLe r.UsageData
            | exact fun habs => absurd h3 habs
        · simp only [if_neg hc]
          refine ⟨?_, ?_, ?_, ?_, ?_, ?_, ?_, ?_, ?_⟩
          all_goals first
            | trivial
            | exact List.Perm.refl _
            | exact fun habs => absurd h3 habs
      · rw [if_neg h3]
        by_cases h4 : format = "summary"
        · rw [if_pos h4]
          exact ⟨rfl, rfl, rfl, rfl, rfl, rfl, rfl, List.Perm.refl _, fun _ => rfl⟩
        · rw [if_neg h4]
          exact ⟨rfl, rfl, rfl, rfl, rfl, rfl, rfl, List.Perm.refl _, fun _ => rfl⟩

/-- Witness for C8 (amended): a non-`table` rendering of the concrete
report leaves it exactly unchanged. -/
theorem output_preserves_report_amended_witness :
    (Output rUnsorted "json").1 = rUnsorted :=
  (output_preserves_report_amended rUnsorted "json").2.2.2.2.2.2.2.2 (by decide)

theorem digitChar_toNat (n : Nat) (h : n < 10) : (digitChar n).toNat = 48 + n := by
  interval_cases n <;> rfl

theorem digitChar_isDigit (n : Nat) (h : n < 10) : isDigitCh (digitChar n) = true := by
  interval_cases n <;> rfl

theorem natDigitsAux_eq_append (n : Nat) :
    ∀ fuel acc, n < fuel → natDigitsAux fuel n acc = natDigits n ++ acc := by
  induction n using Nat.strong_induction_on with
  | _ n ih =>
    intro fuel acc hfuel
    obtain ⟨f, rfl⟩ : ∃ f, fuel = f + 1 := ⟨fuel - 1, by omega⟩
    by_cases h10 : n < 10
    · simp [natDigitsAux, natDigits, h10]
    · have hdivn : n / 10 < n := Nat.div_lt_self (by omega) (by omega)
      have hstep1 : natDigitsAux (f + 1) n acc =
          natDigitsAux f (n / 10) (digitChar (n % 10) :: acc) := by
        simp [natDigitsAux, h10]
      have hstep2 : natDigits n = natDigits (n / 10) ++ [digitChar (n % 10)] := by
        show natDigitsAux (n + 1) n [] = _
        have : natDigitsAux (n + 1) n [] =
            natDigitsAux n (n / 10) (digitChar (n % 10) :: []) := by
          simp [natDigitsAux, h10]
        rw [this, ih (n / 10) hdivn n _ (by omega)]
      rw [hstep1, ih (n / 10) hdivn f _ (by omega), hstep2, List.append_assoc]
      rfl

theorem natDigits_small (n : Nat) (h : n < 10) : natDigits n = [digitChar n] := by
  simp [natDigits, natDigitsAux, h]

theorem natDigits_step (n : Nat) (h : ¬ n < 10) :
    natDigits n = natDigits (n / 10) ++ [digitChar (n % 10)] := by
  show natDigitsAux (n + 1) n [] = _
  have h1 : natDigitsAux (n + 1) n [] =
      natDigitsAux n (n / 10) (digitChar (n % 10) :: []) := by
    simp [natDigitsAux, h]
  rw [h1, natDigitsAux_eq_append (n / 10) n _ (by omega)]

theorem natDigits_ne_nil (n : Nat) : natDigits n ≠ [] := by
  by_cases h : n < 10
  · rw [natDigits_small n h]; simp
  · rw [natDigits_step n h]; simp

theorem natDigits_all_digits (n : Nat) :
    ∀ c ∈ natDigits n, isDigitCh c = true := by
  induction n using Nat.strong_induction_on with
  | _ n ih =>
    intro c hc
    by_cases h : n < 10
    · rw [natDigits_small n h] at hc
      rcases List.mem_singleton.1 hc with rfl
      exact digitChar_isDigit n h
    · rw [natDigits_step n h] at hc
      have hlt : n / 10 < n := Nat.div_lt_self (by omega) (by omega)
      rcases List.mem_append.1 hc with hc | hc
      · exact ih (n / 10) hlt c hc
      · rcases List.mem_singleton.1 hc with rfl
        exact digitChar_isDigit _ (Nat.mod_lt _ (by omega))

theorem digitsVal_natDigits (n : Nat) : digitsVal (natDigits n) = n := by
  induction n using Nat.strong_induction_on with
  | _ n ih =>
    by_cases h : n < 10
    · rw [natDigits_small n h]
      show 10 * 0 + ((digitChar n).toNat - 48) = n
      rw [digitChar_toNat n h]
      omega
    · rw [natDigits_step n h]
      unfold digitsVal
      rw [List.foldl_append]
      have hlt : n / 10 < n := Nat.div_lt_self (by omega) (by omega)
      have hd := ih (n / 10) hlt
      unfold digitsVal at hd
      rw [hd]
      show 10 * (n / 10) + ((digitChar (n % 10)).toNat - 48) = n
      rw [digitChar_toNat _ (Nat.mod_lt _ (by omega))]
      omega

theorem isDigitCh_ne {c : Char} (h : isDigitCh c = true) (d : Char)
    (hd : isDigitCh d = false) : c ≠ d := by
  intro he
  rw [he, hd] at h
  cases h

theorem digitSpan_append (ds : List Char) :
    ∀ rest, (∀ c ∈ ds, isDigitCh c = true) → headNotDigit rest →
      digitSpan (ds ++ rest) = (ds, rest) := by
  induction ds with
  | nil =>
    intro rest _ hrest
    cases rest with
    | nil => rfl
    | cons c cs =>
      have : isDigitCh c = false := hrest
      simp [digitSpan, this]
  | cons d ds ih =>
    intro rest hds hrest
    have hd : isDigitCh d = true := hds d (List.mem_cons_self _ _)
    simp only [List.cons_append, digitSpan, hd, if_true, List.append_eq]
    rw [ih rest (fun c hc => hds c (List.mem_cons_of_mem _ hc)) hrest]

theorem parseNat_natDigits (n : Nat) (rest : List Char) (hrest : headNotDigit rest) :
    parseNat (natDigits n ++ rest) = some (n, rest) := by
  unfold parseNat
  rw [digitSpan_append (natDigits n) rest (natDigits_all_digits n) hrest]
  cases hd : natDigits n with
  | nil => exact absurd hd (natDigits_ne_nil n)
  | cons c cs =>
    have : digitsVal (c :: cs) = n := by rw [← hd]; exact digitsVal_natDigits n
    simp [this]

theorem parseInt_intStr (n : Int) (rest : List Char) (hrest : headNotDigit rest) :
    parseInt (intStr n ++ rest) = some (n, rest) := by
  unfold intStr
  by_cases hn : n < 0
  · rw [if_pos hn]
    show ((parseNat (natDigits n.natAbs ++ rest)).map fun p => (-(p.1 : Int), p.2)) =
      some (n, rest)
    rw [parseNat_natDigits n.natAbs rest hrest]
    show some (-(n.natAbs : Int), rest) = some (n, rest)
    have : -(n.natAbs : Int) = n := by omega
    rw [this]
  · rw [if_neg hn]
    obtain ⟨c, cs, hcons⟩ : ∃ c cs, natDigits n.natAbs = c :: cs := by
      cases hd : natDigits n.natAbs with
      | nil => exact absurd hd (natDigits_ne_nil _)
      | cons c cs => exact ⟨c, cs, rfl⟩
    have hcd : isDigitCh c = true :=
      natDigits_all_digits n.natAbs c (hcons ▸ List.mem_cons_self _ _)
    have hcne : ¬ c = '-' := isDigitCh_ne hcd '-' (by rfl)
    have hparse : parseNat (c :: (cs ++ rest)) = some (n.natAbs, rest) := by
      rw [← List.cons_append, ← hcons]
      exact parseNat_natDigits n.natAbs rest hrest
    rw [hcons]
    show (if c = '-' then (parseNat (cs ++ rest)).map fun p => (-(p.1 : Int), p.2)
      else (parseNat (c :: (cs ++ rest))).map fun p => ((p.1 : Int), p.2)) = some (n, rest)
    rw [if_neg hcne, hparse]
    show some ((n.natAbs : Int), rest) = some (n, rest)
    have : (n.natAbs : Int) = n := by omega
    rw [this]

theorem parseStrBody_cons (c : Char) (cs : List Char)
    (h1 : c ≠ '\\') (h2 : c ≠ '"') :
    parseStrBody (c :: cs) = (parseStrBody cs).map (fun p => (c :: p.1, p.2)) := by
  rw [parseStrBody.eq_def]
  split
  · simp_all
  · rename_i heq; injection heq with heq1 heq2; exact absurd heq1 h1
  · rename_i heq; injection heq with heq1 heq2; exact absurd heq1 h2
  · rename_i heq
    injection heq with heq1 heq2
    subst heq1; subst heq2
    rfl

theorem parseStrBody_escape (s : List Char) :
    ∀ rest, parseStrBody (escape s ++ '"' :: rest) = some (s, rest) := by
  induction s with
  | nil => intro rest; rfl
  | cons c s ih =>
    intro rest
    by_cases hc : c = '"' ∨ c = '\\'
    · have hesc : escape (c :: s) = '\\' :: c :: escape s := by
        simp [escape, escapeChar, hc]
      rw [hesc]
      show (parseStrBody (escape s ++ '"' :: rest)).map (fun p => (c :: p.1, p.2)) =
        some (c :: s, rest)
      rw [ih rest]
      rfl
    · push_neg at hc
      have hesc : escape (c :: s) = c :: escape s := by
        simp [escape, escapeChar, hc.1, hc.2]
      rw [hesc]
      show parseStrBody (c :: (escape s ++ '"' :: rest)) = some (c :: s, rest)
      rw [parseStrBody_cons c _ hc.2 hc.1, ih rest]
      rfl

theorem parseVal_num_arm (fuel : Nat) (c : Char) (cs : List Char)
    (h1 : c ≠ '"') (h2 : c ≠ '[') (h3 : c ≠ '{') :
    parseVal (fuel + 1) (c :: cs) =
      (parseInt (c :: cs)).map (fun p => (Json.num p.1, p.2)) := by
  simp only [parseVal]
  split
  · rename_i heq; injection heq with heq1 heq2; exact absurd heq1 h1
  · rename_i heq; injection heq with heq1 heq2; exact absurd heq1 h2
  · rename_i heq; injection heq with heq1 heq2; exact absurd heq1 h2
  · rename_i heq; injection heq with heq1 heq2; exact absurd heq1 h3
  · rename_i heq; injection heq with heq1 heq2; exact absurd heq1 h3
  · rfl

theorem parseVal_arr_arm (fuel : Nat) (c : Char) (cs : List Char) (hc : c ≠ ']') :
    parseVal (fuel + 1) ('[' :: c :: cs) =
      (parseElems fuel (c :: cs)).map (fun p => (Json.arr p.1, p.2)) := by
  simp only [parseVal]
  split
  · rename_i heq; injection heq with heq1 heq2; exact absurd heq1 (by decide)
  · rename_i heq
    injection heq with heq1 heq2
    injection heq2 with heq2 heq3
    exact absurd heq2 hc
  · rename_i heq
    injection heq with heq1 heq2
    subst heq2
    rfl
  · rename_i heq; injection heq with heq1 heq2; exact absurd heq1 (by decide)
  · rename_i heq; injection heq with heq1 heq2; exact absurd heq1 (by decide)
  · rename_i hne1 hne2 hne3 hne4 hne5
    exact absurd rfl (hne3 (c :: cs))

theorem parseVal_obj_arm (fuel : Nat) (c : Char) (cs : List Char) (hc : c ≠ '}') :
    parseVal (fuel + 1) ('{' :: c :: cs) =
      (parseFields fuel (c :: cs)).map (fun p => (Json.obj p.1, p.2)) := by
  simp only [parseVal]
  split
  · rename_i heq; injection heq with heq1 heq2; exact absurd heq1 (by decide)
  · rename_i heq; injection heq with heq1 heq2; exact absurd heq1 (by decide)
  · rename_i heq; injection heq with heq1 heq2; exact absurd heq1 (by decide)
  · rename_i heq
    injection heq with heq1 heq2
    injection heq2 with heq2 heq3
    exact absurd heq2 hc
  · rename_i heq
    injection heq with heq1 heq2
    subst heq2
    rfl
  · rename_i hne1 hne2 hne3 hne4 hne5
    exact absurd rfl (hne5 (c :: cs))

/-- Every serialized value starts with a character that closes nothing:
the head is a quote, an opening bracket or brace, a minus sign, or a
digit. -/
theorem render_head (j : Json) :
    ∃ c cs, Json.render j = c :: cs ∧ c ≠ ']' ∧ c ≠ '}' ∧ c ≠ ',' := by
  cases j with
  | num n =>
    show ∃ c cs, intStr n = c :: cs ∧ _
    unfold intStr
    by_cases hn : n < 0
    · rw [if_pos hn]
      refine ⟨'-', natDigits n.natAbs, rfl, ?_, ?_, ?_⟩ <;> decide
    · rw [if_neg hn]
      obtain ⟨c, cs, hcons⟩ : ∃ c cs, natDigits n.natAbs = c :: cs := by
        cases hd : natDigits n.natAbs with
        | nil => exact absurd hd (natDigits_ne_nil _)
        | cons c cs => exact ⟨c, cs, rfl⟩
      have hcd : isDigitCh c = true :=
        natDigits_all_digits n.natAbs c (hcons ▸ List.mem_cons_self _ _)
      exact ⟨c, cs, hcons, isDigitCh_ne hcd ']' (by rfl),
        isDigitCh_ne hcd '}' (by rfl), isDigitCh_ne hcd ',' (by rfl)⟩
  | str s =>
    refine ⟨'"', escape s.data ++ ['"'], rfl, ?_, ?_, ?_⟩ <;> decide
  | arr es =>
    refine ⟨'[', renderElems es ++ [']'], rfl, ?_, ?_, ?_⟩ <;> decide
  | obj fs =>
    refine ⟨'{', renderFields fs ++ ['}'], rfl, ?_, ?_, ?_⟩ <;> decide

theorem intStr_head (n : Int) :
    ∃ c cs, intStr n = c :: cs ∧ c ≠ '"' ∧ c ≠ '[' ∧ c ≠ '{' := by
  unfold intStr
  by_cases hn : n < 0
  · rw [if_pos hn]
    refine ⟨'-', natDigits n.natAbs, rfl, ?_, ?_, ?_⟩ <;> decide
  · rw [if_neg hn]
    obtain ⟨c, cs, hcons⟩ : ∃ c cs, natDigits n.natAbs = c :: cs := by
      cases hd : natDigits n.natAbs with
      | nil => exact absurd hd (natDigits_ne_nil _)
      | cons c cs => exact ⟨c, cs, rfl⟩
    have hcd : isDigitCh c = true :=
      natDigits_all_digits n.natAbs c (hcons ▸ List.mem_cons_self _ _)
    exact ⟨c, cs, hcons, isDigitCh_ne hcd _ (by rfl),
      isDigitCh_ne hcd _ (by rfl), isDigitCh_ne hcd _ (by rfl)⟩

theorem parse_render_fuel (fuel : Nat) :
    (∀ j rest, (Json.render j).length + 1 ≤ fuel → headNotDigit rest →
      parseVal fuel (Json.render j ++ rest) = some (j, rest)) ∧
    (∀ es rest, es ≠ [] → (renderElems es).length + 2 ≤ fuel →
      parseElems fuel (renderElems es ++ ']' :: rest) = some (es, rest)) ∧
    (∀ fs rest, fs ≠ [] → (renderFields fs).length + 2 ≤ fuel →
      parseFields fuel (renderFields fs ++ '}' :: rest) = some (fs, rest)) := by
  induction fuel with
  | zero => refine ⟨?_, ?_, ?_⟩ <;> intros <;> omega
  | succ fuel ih =>
    obtain ⟨ihV, ihE, ihF⟩ := ih
    refine ⟨?_, ?_, ?_⟩
    · intro j rest hlen hrest
      cases j with
      | num n =>
        obtain ⟨c, cs, hcons, h1, h2, h3⟩ := intStr_head n
        have hr : Json.render (Json.num n) = intStr n := rfl
        rw [hr, hcons, List.cons_append, parseVal_num_arm fuel c _ h1 h2 h3,
          ← List.cons_append, ← hcons, parseInt_intStr n rest hrest]
        rfl
      | str s =>
        have h1 : Json.render (Json.str s) ++ rest =
            '"' :: (escape s.data ++ '"' :: rest) := by
          show ('"' :: (escape s.data ++ ['"'])) ++ rest = _
          simp [List.append_assoc]
        rw [h1]
        show (parseStrBody (escape s.data ++ '"' :: rest)).map
          (fun p => (Json.str (String.mk p.1), p.2)) = some (Json.str s, rest)
        rw [parseStrBody_escape s.data rest]
        rfl
      | arr es =>
        cases es with
        | nil => exact rfl
        | cons j js =>
          obtain ⟨c, cs, hcons, hc, _, _⟩ := render_head j
          obtain ⟨K, hKe⟩ : ∃ K, renderElems (j :: js) = Json.render j ++ K := by
            cases js with
            | nil => exact ⟨[], by simp [renderElems]⟩
            | cons j2 js2 => exact ⟨',' :: renderElems (j2 :: js2), rfl⟩
          have hinput : Json.render (Json.arr (j :: js)) ++ rest =
              '[' :: (c :: (cs ++ K ++ ']' :: rest)) := by
            show ('[' :: (renderElems (j :: js) ++ [']'])) ++ rest = _
            rw [hKe, hcons]
            simp [List.append_assoc]
          rw [hinput, parseVal_arr_arm fuel c _ hc]
          have hback : c :: (cs ++ K ++ ']' :: rest) =
              renderElems (j :: js) ++ ']' :: rest := by
            rw [hKe, hcons]
            simp [List.append_assoc]
          have hsz : (renderElems (j :: js)).length + 2 ≤ fuel := by
            have hair : (Json.render (Json.arr (j :: js))).length =
                (renderElems (j :: js)).length + 2 := by
              show ('[' :: (renderElems (j :: js) ++ [']'])).length = _
              simp
            omega
          rw [hback, ihE (j :: js) rest (by simp) hsz]
          rfl
      | obj fs =>
        cases fs with
        | nil => exact rfl
        | cons f fs2 =>
          obtain ⟨K, hKe⟩ : ∃ K, renderFields (f :: fs2) =
              ('"' :: (escape f.1.data ++ '"' :: ':' :: Json.render f.2)) ++ K := by
            cases fs2 with
            | nil => exact ⟨[], by simp [renderFields]⟩
            | cons f2 fs3 => exact ⟨',' :: renderFields (f2 :: fs3), rfl⟩
          have hinput : Json.render (Json.obj (f :: fs2)) ++ rest =
              '{' :: ('"' :: ((escape f.1.data ++ '"' :: ':' :: Json.render f.2) ++
                K ++ '}' :: rest)) := by
            show ('{' :: (renderFields (f :: fs2) ++ ['}'])) ++ rest = _
            rw [hKe]
            simp [List.append_assoc]
          rw [hinput]
          show (parseFields fuel
              ('"' :: ((escape f.1.data ++ '"' :: ':' :: Json.render f.2) ++
                K ++ '}' :: rest))).map (fun p => (Json.obj p.1, p.2)) =
            some (Json.obj (f :: fs2), rest)
          have hback : ('"' :: ((escape f.1.data ++ '"' :: ':' :: Json.render f.2) ++
              K ++ '}' :: rest)) = renderFields (f :: fs2) ++ '}' :: rest := by
            rw [hKe]
            simp [List.append_assoc]
          have hsz : (renderFields (f :: fs2)).length + 2 ≤ fuel := by
            have hojr : (Json.render (Json.obj (f :: fs2))).length =
                (renderFields (f :: fs2)).length + 2 := by
              show ('{' :: (renderFields (f :: fs2) ++ ['}'])).length = _
              simp
            omega
          rw [hback, ihF (f :: fs2) rest (by simp) hsz]
          rfl
    · intro es rest hne hlen
      cases es with
      | nil => exact absurd rfl hne
      | cons j js =>
        cases js with
        | nil =>
          have h0 : renderElems [j] = Json.render j := by simp [renderElems]
          have hv : parseVal fuel (Json.render j ++ ']' :: rest) =
              some (j, ']' :: rest) := by
            refine ihV j (']' :: rest) ?_ (by show isDigitCh ']' = false; rfl)
            rw [h0] at hlen
            omega
          show parseElems (fuel + 1) (renderElems [j] ++ ']' :: rest) =
            some ([j], rest)
          rw [h0]
          simp only [parseElems]
          rw [hv]
          rfl
        | cons j2 js2 =>
          have h0 : renderElems (j :: j2 :: js2) =
              Json.render j ++ ',' :: renderElems (j2 :: js2) := rfl
          have hlensplit : (renderElems (j :: j2 :: js2)).length =
              (Json.render j).length + 1 + (renderElems (j2 :: js2)).length := by
            rw [h0]
            simp
            omega
          have hv := ihV j (',' :: (renderElems (j2 :: js2) ++ ']' :: rest))
            (by omega) (by show isDigitCh ',' = false; rfl)
          have he : parseElems fuel (renderElems (j2 :: js2) ++ ']' :: rest) =
              some (j2 :: js2, rest) :=
            ihE (j2 :: js2) rest (by simp) (by omega)
          show parseElems (fuel + 1) (renderElems (j :: j2 :: js2) ++ ']' :: rest) =
            some (j :: j2 :: js2, rest)
          rw [h0]
          have hshape : (Json.render j ++ ',' :: renderElems (j2 :: js2)) ++ ']' :: rest =
              Json.render j ++ (',' :: (renderElems (j2 :: js2) ++ ']' :: rest)) := by
            simp [List.append_assoc]
          rw [hshape]
          simp only [parseElems]
          rw [hv]
          show (parseElems fuel (renderElems (j2 :: js2) ++ ']' :: rest)).map
            (fun p => (j :: p.1, p.2)) = some (j :: j2 :: js2, rest)
          rw [he]
          rfl
    · intro fs rest hne hlen
      cases fs with
      | nil => exact absurd rfl hne
      | cons f fs2 =>
        cases fs2 with
        | nil =>
          have h0 : renderFields [f] =
              '"' :: (escape f.1.data ++ '"' :: ':' :: Json.render f.2) := by
            simp [renderFields]
          have hlen0 : (renderFields [f]).length =
              (escape f.1.data).length + (Json.render f.2).length + 3 := by
            rw [h0]
            simp
            omega
          have hv : parseVal fuel (Json.render f.2 ++ '}' :: rest) =
              some (f.2, '}' :: rest) :=
            ihV f.2 ('}' :: rest) (by omega) (by show isDigitCh '}' = false; rfl)
          show parseFields (fuel + 1) (renderFields [f] ++ '}' :: rest) =
            some ([f], rest)
          have hshape : renderFields [f] ++ '}' :: rest =
              '"' :: (escape f.1.data ++ '"' :: (':' :: (Json.render f.2 ++ '}' :: rest))) := by
            rw [h0]
            simp [List.append_assoc]
          rw [hshape]
          show (match parseStrBody (escape f.1.data ++ '"' ::
              (':' :: (Json.render f.2 ++ '}' :: rest))) with
            | none => none
            | some (k, r) =>
              match r with
              | ':' :: r2 =>
                match parseVal fuel r2 with
                | none => none
                | some (v, r3) =>
                  match r3 with
                  | ',' :: r4 => (parseFields fuel r4).map
                      (fun p => ((String.mk k, v) :: p.1, p.2))
                  | '}' :: r4 => some ([(String.mk k, v)], r4)
                  | _ => none
              | _ => none) = some ([f], rest)
          rw [parseStrBody_escape f.1.data (':' :: (Json.render f.2 ++ '}' :: rest))]
          show (match parseVal fuel (Json.render f.2 ++ '}' :: rest) with
            | none => none
            | some (v, r3) =>
              match r3 with
              | ',' :: r4 => (parseFields fuel r4).map
                  (fun p => ((String.mk f.1.data, v) :: p.1, p.2))
              | '}' :: r4 => some ([(String.mk f.1.data, v)], r4)
              | _ => none) = some ([f], rest)
          rw [hv]
          rfl
        | cons f2 fs3 =>
          have h0 : renderFields (f :: f2 :: fs3) =
              ('"' :: (escape f.1.data ++ '"' :: ':' :: Json.render f.2)) ++
                ',' :: renderFields (f2 :: fs3) := rfl
          have hlen0 : (renderFields (f :: f2 :: fs3)).length =
              (escape f.1.data).length + (Json.render f.2).length + 4 +
                (renderFields (f2 :: fs3)).length := by
            rw [h0]
            simp
            omega
          have hv : parseVal fuel (Json.render f.2 ++
              ',' :: (renderFields (f2 :: fs3) ++ '}' :: rest)) =
              some (f.2, ',' :: (renderFields (f2 :: fs3) ++ '}' :: rest)) :=
            ihV f.2 _ (by omega) (by show isDigitCh ',' = false; rfl)
          have hf : parseFields fuel (renderFields (f2 :: fs3) ++ '}' :: rest) =
              some (f2 :: fs3, rest) :=
            ihF (f2 :: fs3) rest (by simp) (by omega)
          show parseFields (fuel + 1) (renderFields (f :: f2 :: fs3) ++ '}' :: rest) =
            some (f :: f2 :: fs3, rest)
          have hshape : renderFields (f :: f2 :: fs3) ++ '}' :: rest =
              '"' :: (escape f.1.data ++ '"' :: (':' :: (Json.render f.2 ++
                ',' :: (renderFields (f2 :: fs3) ++ '}' :: rest)))) := by
            rw [h0]
            simp [List.append_assoc]
          rw [hshape]
          show (match parseStrBody (escape f.1.data ++ '"' ::
              (':' :: (Json.render f.2 ++ ',' :: (renderFields (f2 :: fs3) ++ '}' :: rest)))) with
            | none => none
            | some (k, r) =>
              match r with
              | ':' :: r2 =>
                match parseVal fuel r2 with
                | none => none
                | some (v, r3) =>
                  match r3 with
                  | ',' :: r4 => (parseFields fuel r4).map
                      (fun p => ((String.mk k, v) :: p.1, p.2))
                  | '}' :: r4 => some ([(String.mk k, v)], r4)
                  | _ => none
              | _ => none) = some (f :: f2 :: fs3, rest)
          rw [parseStrBody_escape f.1.data]
          show (match parseVal fuel (Json.render f.2 ++
              ',' :: (renderFields (f2 :: fs3) ++ '}' :: rest)) with
            | none => none
            | some (v, r3) =>
              match r3 with
              | ',' :: r4 => (parseFields fuel r4).map
                  (fun p => ((String.mk f.1.data, v) :: p.1, p.2))
              | '}' :: r4 => some ([(String.mk f.1.data, v)], r4)
              | _ => none) = some (f :: f2 :: fs3, rest)
          rw [hv]
          show (parseFields fuel (renderFields (f2 :: fs3) ++ '}' :: rest)).map
            (fun p => ((String.mk f.1.data, f.2) :: p.1, p.2)) =
            some (f :: f2 :: fs3, rest)
          rw [hf]
          rfl

/-- The JSON serialization of any value parses back to exactly that
value: the emitted document is valid, parseable JSON. -/
theorem json_parse_render (j : Json) : Json.parse (Json.render j) = some j := by
  unfold Json.parse
  have h := (parse_render_fuel ((Json.render j).length + 1)).1 j []
    (le_refl _) trivial
  rw [List.append_nil] at h
  rw [h]

/-- C6: the JSON document emitted for a report is valid, parseable JSON —
parsing the serialized output recovers the document exactly — and its
summary's `usageDataEntries` and `costDataEntries` equal the number of
usage and cost entries of the report. -/
theorem outputJSON_roundtrip_counts (r : Report) :
    Json.parse (Json.render (OutputJSON r)) = some (OutputJSON r) ∧
    ((OutputJSON r).lookup "summary").bind
        (fun s => Json.lookup s "usageDataEntries") =
      some (Json.num (r.UsageData.length : Int)) ∧
    ((OutputJSON r).lookup "summary").bind
        (fun s => Json.lookup s "costDataEntries") =
      some (Json.num (r.CostData.length : Int)) := by
  refine ⟨json_parse_render _, ?_, ?_⟩ <;>
    (by_cases hu : r.UsageData = [] <;> by_cases hc : r.CostData = [] <;>
      by_cases hs : r.CustomSections = [] <;>
      simp [OutputJSON, summaryJson, Json.lookup, lookupField, hu, hc, hs])

/-- C9: a report with no usage and no cost records renders without error
in table form — the emitted lines contain the header (provider, period,
report type) and the zero entry counts — and in JSON form: the document
is valid, parseable JSON whose header fields are populated and whose
summary reports zero usage and cost entries. -/
theorem empty_report_renders (r : Report)
    (hu : r.UsageData = []) (hc : r.CostData = []) :
    (Output r "table").2.2 = none ∧
    ("Report for " ++ r.ProviderName) ∈ (Output r "table").2.1 ∧
    ("Period: " ++ formatDay r.StartDate ++ " to " ++ formatDay r.EndDate) ∈
      (Output r "table").2.1 ∧
    ("Report Type: " ++ r.ReportType) ∈ (Output r "table").2.1 ∧
    ("Usage data entries: " ++ natStr 0) ∈ (Output r "table").2.1 ∧
    ("Cost data entries: " ++ natStr 0) ∈ (Output r "table").2.1 ∧
    (OutputJSON r).lookup "provider" = some (Json.str r.ProviderName) ∧
    (OutputJSON r).lookup "reportType" = some (Json.str r.ReportType) ∧
    ((OutputJSON r).lookup "summary").bind
        (fun s => Json.lookup s "usageDataEntries") = some (Json.num 0) ∧
    ((OutputJSON r).lookup "summary").bind
        (fun s => Json.lookup s "costDataEntries") = some (Json.num 0) ∧
    Json.parse (Json.render (OutputJSON r)) = some (OutputJSON r) := by
  have htab : Output r "table" = outputAsTableRun r := by
    simp [Output]
  have hcond : ¬ (r.UsageData ≠ [] ∧ (r.ReportType = "usage" ∨ r.ReportType = "full")) := by
    simp [hu]
  have hcond2 : ¬ (r.CostData ≠ [] ∧ (r.ReportType = "cost" ∨ r.ReportType = "full")) := by
    simp [hc]
  refine ⟨?_, ?_, ?_, ?_, ?_, ?_, ?_, ?_, ?_, ?_, json_parse_render _⟩
  · rw [htab]; rfl
  all_goals
    first
    | (rw [htab]
       unfold outputAsTableRun
       simp only [if_neg hcond, if_neg hcond2, hu, hc, List.length_nil,
         List.append_nil]
       simp [List.mem_cons])
    | (by_cases hs : r.CustomSections = [] <;>
        simp [OutputJSON, summaryJson, Json.lookup, lookupField, hu, hc, hs])

/-- Witness for C9: the concrete empty report renders in table form
without error and its JSON summary reports zero entries. -/
theorem empty_report_renders_witness :
    (Output rEmpty "table").2.2 = none ∧
    ((OutputJSON rEmpty).lookup "summary").bind
        (fun s => Json.lookup s "usageDataEntries") = some (Json.num 0) := by
  exact ⟨(empty_report_renders rEmpty rfl rfl).1,
    (empty_report_renders rEmpty rfl rfl).2.2.2.2.2.2.2.2.1⟩
